import Mathlib

/-!
# Verification of the `jwt` library (jwt.cpp)

A shallow embedding of `src/jwt/jwt.cpp` in Lean 4.

C++ `std::string` values and byte buffers (`std::vector<uint8_t>`) are both
modelled as `List Nat` (each element a byte value).  The external
collaborators — OpenSSL's HMAC / EVP digest-sign primitives and the nlohmann
JSON library's `parse`/`dump` — are modelled as parameters (`Crypto`,
`JsonLib`); everything that jwt.cpp itself implements (the base64url codec,
algorithm dispatch, the encode/decode pipelines and all their control flow)
is embedded concretely.
-/

set_option maxRecDepth 10000

namespace JWT

/-- Byte strings: the model of both `std::string` and `std::vector<uint8_t>`. -/
abbrev Str := List Nat

/-- ASCII string literal to byte list (all literals in jwt.cpp are ASCII). -/
def s2b (s : String) : Str := s.data.map Char.toNat

/-! ## Base64url codec (`detail::b64encode` / `detail::b64decode`, jwt.cpp:37-101)

`b64encode` in the source produces padded standard base64 via OpenSSL BIOs and
then strips the trailing `'='` padding and replaces `'+'→'-'`, `'/'→'_'`
(jwt.cpp:56-58).  The embedding fuses those three post-passes into the
URL-safe alphabet and the unpadded remainder cases of `sextetsOfBytes`;
the net function is the same. -/

/-- The base64url alphabet, i.e. the standard alphabet after the `+`→`-`,
`/`→`_` substitution of jwt.cpp:57-58. -/
def b64urlAlphabet : Str :=
  s2b "ABCDEFGHIJKLMNOPQRSTUVWXYZabcdefghijklmnopqrstuvwxyz0123456789-_"

/-- Character emitted for a sextet value. -/
def urlCharOf (s : Nat) : Nat := b64urlAlphabet.getD s 0

/-- Split bytes into 6-bit groups, exactly as base64 does: three bytes become
four sextets; a final remainder of one byte becomes two sextets, of two bytes
three sextets (the unpadded lengths left after jwt.cpp:56 strips `'='`). -/
def sextetsOfBytes : Str → Str
  | [] => []
  | [a] => [a / 4, a % 4 * 16]
  | [a, b] => [a / 4, a % 4 * 16 + b / 16, b % 16 * 4]
  | a :: b :: c :: rest =>
      a / 4 :: (a % 4 * 16 + b / 16) :: (b % 16 * 4 + c / 64) :: c % 64 ::
        sextetsOfBytes rest

/-- `detail::b64encode` (jwt.cpp:37-61). -/
def b64encode (l : Str) : Str := (sextetsOfBytes l).map urlCharOf

/-- `detail::replaceAll` (jwt.cpp:28-35), specialized to the single-byte
from/to pairs it is used with in `b64decode`. -/
def replaceAllByte (l : Str) (a b : Nat) : Str :=
  l.map fun x => if x = a then b else x

/-- Inverse of the standard base64 alphabet (the value OpenSSL assigns to each
character when reading); characters outside the alphabet (including the `'='`
padding) contribute 0 bits of their own. -/
def sextetOf (c : Nat) : Nat :=
  if 65 ≤ c ∧ c ≤ 90 then c - 65
  else if 97 ≤ c ∧ c ≤ 122 then c - 97 + 26
  else if 48 ≤ c ∧ c ≤ 57 then c - 48 + 52
  else if c = 43 then 62
  else if c = 47 then 63
  else 0

/-- Reassemble bytes from quads of sextets (what `BIO_read` through the base64
filter does with a padded input whose length is a multiple of four). -/
def bytesOfSextets : Str → Str
  | a :: b :: c :: d :: rest =>
      (a * 4 + b / 16) :: (b % 16 * 16 + c / 4) :: (c % 4 * 64 + d) ::
        bytesOfSextets rest
  | _ => []

/-- The decoding core of `detail::b64decode`: decode the (re-padded) standard
base64 text `t` and keep `t.length * 3 / 4 - padding` bytes, mirroring the
output-buffer size computed at jwt.cpp:88. -/
def b64decodeCore (t : Str) (padding : Nat) : Str :=
  (bytesOfSextets (t.map sextetOf)).take (t.length * 3 / 4 - padding)

/-- `detail::b64decode` (jwt.cpp:63-101): undo the URL-safe substitution,
re-insert `'='` padding according to `length % 4` (a remainder of 1 is
invalid and yields the empty buffer, jwt.cpp:84-85), then decode. -/
def b64decode (s : Str) : Str :=
  let t := replaceAllByte (replaceAllByte s 45 43) 95 47
  if t.length % 4 = 0 then b64decodeCore t 0
  else if t.length % 4 = 2 then b64decodeCore (t ++ [61, 61]) 2
  else if t.length % 4 = 3 then b64decodeCore (t ++ [61]) 1
  else []

/-- The pointwise effect on one character of the two `replaceAll` passes at
jwt.cpp:67-68 (`'-'→'+'` then `'_'→'/'`). -/
def urlToStdChar (x : Nat) : Nat :=
  if (if x = 45 then 43 else x) = 95 then 47 else (if x = 45 then 43 else x)

/-- The sextets that the re-inserted `'='` padding contributes on decode. -/
def padFor (l : Str) : Str :=
  if l.length % 3 = 0 then [] else if l.length % 3 = 1 then [0, 0] else [0]

/-! ## External collaborators

jwt.cpp delegates to OpenSSL for the cryptographic primitives and to the
nlohmann library for JSON values.  The spec lists both as external
collaborators outside the system's scope, so they are modelled as abstract
parameters: a `Crypto` bundle for the raw HMAC / PEM digest-sign / PEM
digest-verify operations (everything between the algorithm-name dispatch and
the raw signature bytes), and a `JsonLib` bundle for `dump`/`parse`.  All of
jwt.cpp's own logic — dispatch, base64, token assembly and parsing, policy
gates — is concrete. -/

/-- The three digest widths `EVP_sha256/384/512` used by jwt.cpp. -/
inductive Digest where
  | sha256
  | sha384
  | sha512
deriving DecidableEq

/-- Abstract model of the OpenSSL primitives jwt.cpp calls.
`hmac d key msg` are the raw MAC bytes of `HMAC(evp, key, msg)` (jwt.cpp:125).
`pemSign d key msg` models the whole `PEM_read_bio_PrivateKey` +
`EVP_DigestSign*` sequence of jwt.cpp:156-200: `none` collapses every failure
exit (bad BIO, unparsable key, backend error), `some sig` the raw signature.
`pemVerify d key msg sig` models `PEM_read_bio_PUBKEY` + `EVP_DigestVerify*`
(jwt.cpp:239-269), with every failure exit collapsed to `false`. -/
structure Crypto where
  hmac : Digest → Str → Str → Str
  pemSign : Digest → Str → Str → Option Str
  pemVerify : Digest → Str → Str → Str → Bool

/-- nlohmann JSON values, as used by jwt.cpp: object keys are kept sorted by
`std::map`, so `mkHeader` below lists `"alg"` before `"typ"`. -/
inductive Json where
  | null
  | bool (b : Bool)
  | num (n : Int)
  | str (s : Str)
  | arr (elems : List Json)
  | obj (fields : List (Str × Json))

/-- Abstract model of the nlohmann serialization boundary: `dump` is
`json::dump()`, `parse` is `json::parse` with `none` standing for the
exception it throws on invalid input. -/
structure JsonLib where
  dump : Json → Str
  parse : Str → Option Json

/-- Key lookup in an object, in declaration order (nlohmann `find`). -/
def lookupField : List (Str × Json) → Str → Option Json
  | [], _ => none
  | (k, v) :: rest, key => if k = key then some v else lookupField rest key

/-- `const string& theAlg = header["alg"]` (jwt.cpp:287,324): produces the
string when the field exists and is a string; every other case (missing key,
non-string value, non-object json) makes nlohmann throw, modelled `none`. -/
def getStr (j : Json) (key : Str) : Option Str :=
  match j with
  | .obj fields =>
      match lookupField fields key with
      | some (.str s) => some s
      | _ => none
  | _ => none

/-- The header object built at jwt.cpp:274-277 (keys in nlohmann's sorted
order). -/
def mkHeader (alg : Str) : Json :=
  Json.obj [(s2b "alg", Json.str alg), (s2b "typ", Json.str (s2b "JWT"))]

/-- `str.find(sub) != string::npos` for the `"HS"` dispatch tests at
jwt.cpp:293 and jwt.cpp:342. -/
def hasSubstr (l sub : Str) : Bool :=
  (List.range (l.length + 1)).any fun i => (l.drop i).take sub.length == sub

/-- Index of the first occurrence of byte `c`, `none` for `string::npos`. -/
def findIdxFrom : Str → Nat → Option Nat
  | [], _ => none
  | b :: rest, c => if b = c then some 0 else (findIdxFrom rest c).map (· + 1)

/-- `str.find_first_of(c, start)` (jwt.cpp:313-314). -/
def findFrom (l : Str) (c start : Nat) : Option Nat :=
  (findIdxFrom (l.drop start) c).map (· + start)

/-- `jwt::signHMAC` (jwt.cpp:106-128): exact-name dispatch to a digest, then
HMAC and base64url; any other algorithm name returns the empty string. -/
def signHMAC (C : Crypto) (str key alg : Str) : Str :=
  if alg = s2b "HS256" then b64encode (C.hmac .sha256 key str)
  else if alg = s2b "HS384" then b64encode (C.hmac .sha384 key str)
  else if alg = s2b "HS512" then b64encode (C.hmac .sha512 key str)
  else []

/-- The digest chosen by the `RS*`/`ES*` if-chains of jwt.cpp:134-154 and
jwt.cpp:210-230; `none` is the final `else` (unsupported name). -/
def pemDigest (alg : Str) : Option Digest :=
  if alg = s2b "RS256" then some .sha256
  else if alg = s2b "RS384" then some .sha384
  else if alg = s2b "RS512" then some .sha512
  else if alg = s2b "ES256" then some .sha256
  else if alg = s2b "ES384" then some .sha384
  else if alg = s2b "ES512" then some .sha512
  else none

/-- `jwt::signPEM` (jwt.cpp:130-204). -/
def signPEM (C : Crypto) (str key alg : Str) : Str :=
  match pemDigest alg with
  | none => []
  | some evp =>
      match C.pemSign evp key str with
      | none => []
      | some sig => b64encode sig

/-- `jwt::verifyPEM` (jwt.cpp:206-270): unknown algorithm fails, an empty
decoded signature fails (jwt.cpp:235-237), otherwise the backend verdict. -/
def verifyPEM (C : Crypto) (str b64sig key alg : Str) : Bool :=
  match pemDigest alg with
  | none => false
  | some evp =>
      let sig := b64decode b64sig
      if sig = [] then false
      else C.pemVerify evp key str sig

/-- The two observable outcomes of `jwt::decode`: a returned json value
(`returned Json.null` is the `json{}` failure result) or a propagated
nlohmann exception. -/
inductive DecodeResult where
  | thrown
  | returned (j : Json)

/-- `jwt::encode` (jwt.cpp:272-305). -/
def encode (L : JsonLib) (C : Crypto) (payload : Json) (key alg : Str) : Str :=
  let header := mkHeader (if alg = [] then s2b "HS256" else alg)
  let encodedHeader := b64encode (L.dump header)
  let encodedPayload := b64encode (L.dump payload)
  let encodedToken := encodedHeader ++ [46] ++ encodedPayload
  let theAlg := (getStr header (s2b "alg")).getD []
  let signature :=
    if theAlg = s2b "none" then []
    else if hasSubstr theAlg (s2b "HS") then signHMAC C encodedToken key theAlg
    else signPEM C encodedToken key theAlg
  if theAlg ≠ s2b "none" ∧ signature = [] then []
  else encodedToken ++ [46] ++ signature

/-- `jwt::decode` (jwt.cpp:307-361). -/
def decode (L : JsonLib) (C : Crypto) (jwt key : Str) (alg : List Str) :
    DecodeResult :=
  if jwt = [] then .returned .null
  else
    match findFrom jwt 46 0 with
    | none => .returned .null
    | some firstPeriod =>
      match findFrom jwt 46 (firstPeriod + 1) with
      | none => .returned .null
      | some secondPeriod =>
        match L.parse (b64decode (jwt.take firstPeriod)) with
        | none => .thrown
        | some header =>
          match getStr header (s2b "alg") with
          | none => .thrown
          | some theAlg =>
            if theAlg = s2b "none" ∧ key ≠ [] then .returned .null
            else if alg.contains theAlg = false ∧ alg ≠ [] then .returned .null
            else
              let encodedToken := jwt.take secondPeriod
              let signature := jwt.drop (secondPeriod + 1)
              if theAlg = s2b "none" then
                match L.parse (b64decode
                    ((jwt.drop (firstPeriod + 1)).take
                      (secondPeriod - firstPeriod - 1))) with
                | none => .thrown
                | some payload => .returned payload
              else if hasSubstr theAlg (s2b "HS") then
                let calculatedSignature := signHMAC C encodedToken key theAlg
                if signature ≠ calculatedSignature ∨ calculatedSignature = [] then
                  .returned .null
                else
                  match L.parse (b64decode
                      ((jwt.drop (firstPeriod + 1)).take
                        (secondPeriod - firstPeriod - 1))) with
                  | none => .thrown
                  | some payload => .returned payload
              else if verifyPEM C encodedToken signature key theAlg then
                match L.parse (b64decode
                    ((jwt.drop (firstPeriod + 1)).take
                      (secondPeriod - firstPeriod - 1))) with
                | none => .thrown
                | some payload => .returned payload
              else .returned .null

/-- What `decode` does to a well-shaped token `eh.ep.sig` (no `'.'` inside
`eh` or `ep`) after the shape analysis: the continuation of jwt.cpp:320-360
with the three segments substituted in. -/
def decodeChecked (L : JsonLib) (C : Crypto) (eh ep sig key : Str)
    (alg : List Str) : DecodeResult :=
  match L.parse (b64decode eh) with
  | none => .thrown
  | some header =>
    match getStr header (s2b "alg") with
    | none => .thrown
    | some theAlg =>
      if theAlg = s2b "none" ∧ key ≠ [] then .returned .null
      else if alg.contains theAlg = false ∧ alg ≠ [] then .returned .null
      else
        if theAlg = s2b "none" then
          match L.parse (b64decode ep) with
          | none => .thrown
          | some payload => .returned payload
        else if hasSubstr theAlg (s2b "HS") then
          let calculatedSignature := signHMAC C (eh ++ 46 :: ep) key theAlg
          if sig ≠ calculatedSignature ∨ calculatedSignature = [] then
            .returned .null
          else
            match L.parse (b64decode ep) with
            | none => .thrown
            | some payload => .returned payload
        else if verifyPEM C (eh ++ 46 :: ep) sig key theAlg then
          match L.parse (b64decode ep) with
          | none => .thrown
          | some payload => .returned payload
        else .returned .null

/-! ### Claim-level notions and concrete instances for witnesses -/

/-- The ten algorithm names of the registry (spec section 3; the if-chains of
jwt.cpp:109-120, 134-154 plus the `"none"` arm). -/
def supportedAlgs : List Str :=
  [s2b "HS256", s2b "HS384", s2b "HS512", s2b "RS256", s2b "RS384",
   s2b "RS512", s2b "ES256", s2b "ES384", s2b "ES512", s2b "none"]

/-- Formalizes "key `k` valid for algorithm `a`" from the round-trip claim:
for `"none"` the caller must verify with an empty key (a non-empty key is by
design rejected); for `HS*` the same key on both sides and an HMAC backend
that produces output (real digests are 32/48/64 bytes, never empty); for
`RS*`/`ES*` a private key the backend can sign with and the matching public
key, i.e. signing succeeds with non-empty signature bytes that the public
key verifies. -/
def KeyValidFor (C : Crypto) (a encKey decKey : Str) : Prop :=
  if a = s2b "none" then decKey = []
  else if a = s2b "HS256" then
    decKey = encKey ∧ ∀ m, C.hmac .sha256 encKey m ≠ []
  else if a = s2b "HS384" then
    decKey = encKey ∧ ∀ m, C.hmac .sha384 encKey m ≠ []
  else if a = s2b "HS512" then
    decKey = encKey ∧ ∀ m, C.hmac .sha512 encKey m ≠ []
  else
    match pemDigest a with
    | some d => ∀ m, ∃ sig, C.pemSign d encKey m = some sig ∧ sig ≠ [] ∧
        (∀ b ∈ sig, b < 256) ∧ C.pemVerify d decKey m sig = true
    | none => False

/-- A crypto backend whose primitives always succeed (used by witnesses). -/
def trivialCrypto : Crypto :=
  ⟨fun _ _ _ => [1], fun _ _ _ => some [1], fun _ _ _ _ => true⟩

/-- A crypto backend whose primitives always fail (used by witnesses). -/
def emptyCrypto : Crypto :=
  ⟨fun _ _ _ => [], fun _ _ _ => none, fun _ _ _ _ => false⟩

/-- A JSON library that serializes everything to `"A"` and parses `"A"` back
to the `alg="none"` header object (enough to witness hypotheses that only
involve that one value). -/
def constJsonLib : JsonLib :=
  ⟨fun _ => [65], fun s => if s = [65] then some (mkHeader (s2b "none")) else none⟩

/-- A JSON library whose parser rejects everything (a throwing `json::parse`). -/
def noneJsonLib : JsonLib := ⟨fun _ => [], fun _ => none⟩

/-- A JSON library that parses `"B"` to the `alg="HS256"` header object. -/
def hs256JsonLib : JsonLib :=
  ⟨fun _ => [66], fun s => if s = [66] then some (mkHeader (s2b "HS256")) else none⟩

/-! ### Base64 lemmas -/

/-- Induction principle following the 3-byte chunking of `sextetsOfBytes`. -/
def chunk3Ind {P : Str → Prop} (h0 : P []) (h1 : ∀ a, P [a])
    (h2 : ∀ a b, P [a, b]) (h3 : ∀ a b c r, P r → P (a :: b :: c :: r)) :
    ∀ l, P l
  | [] => h0
  | [a] => h1 a
  | [a, b] => h2 a b
  | a :: b :: c :: r => h3 a b c r (chunk3Ind h0 h1 h2 h3 r)

theorem sextetsOfBytes_lt (l : Str) (h : ∀ b ∈ l, b < 256) :
    ∀ s ∈ sextetsOfBytes l, s < 64 := by
  induction l using chunk3Ind with
  | h0 => simp [sextetsOfBytes]
  | h1 a =>
      have := h a (by simp)
      simp only [sextetsOfBytes, List.mem_cons, List.not_mem_nil, or_false]
      rintro s (rfl | rfl) <;> omega
  | h2 a b =>
      have ha := h a (by simp)
      have hb := h b (by simp)
      simp only [sextetsOfBytes, List.mem_cons, List.not_mem_nil, or_false]
      rintro s (rfl | rfl | rfl) <;> omega
  | h3 a b c r ih =>
      have ha := h a (by simp)
      have hb := h b (by simp)
      have hc := h c (by simp)
      simp only [sextetsOfBytes, List.mem_cons]
      rintro s (rfl | rfl | rfl | rfl | hs)
      · omega
      · omega
      · omega
      · omega
      · exact ih (fun x hx => h x (by simp [hx])) s hs

theorem urlCharOf_lt_64_spec : ∀ s, s < 64 →
    urlCharOf s ≠ 46 ∧ urlCharOf s ≠ 61 ∧ urlCharOf s ≠ 43 ∧
    urlCharOf s ≠ 47 := by decide

theorem urlCharOf_ne (s : Nat) :
    urlCharOf s ≠ 46 ∧ urlCharOf s ≠ 61 ∧ urlCharOf s ≠ 43 ∧
    urlCharOf s ≠ 47 := by
  by_cases h : s < 64
  · exact urlCharOf_lt_64_spec s h
  · have hlen : b64urlAlphabet.length = 64 := by decide
    have : urlCharOf s = 0 := by
      unfold urlCharOf
      rw [List.getD_eq_default]
      omega
    rw [this]
    refine ⟨by omega, by omega, by omega, by omega⟩

theorem not_mem_b64encode_of_ne (c : Nat)
    (hc : ∀ s, urlCharOf s ≠ c) (l : Str) : c ∉ b64encode l := by
  intro hmem
  rcases List.mem_map.mp hmem with ⟨s, _, hs⟩
  exact hc s hs

/-- No `'.'` (byte 46) ever appears in base64url output. -/
theorem dot_not_mem_b64encode (l : Str) : 46 ∉ b64encode l :=
  not_mem_b64encode_of_ne 46 (fun s => (urlCharOf_ne s).1) l

theorem sextetsOfBytes_eq_nil : ∀ l : Str, sextetsOfBytes l = [] ↔ l = [] := by
  intro l
  cases l with
  | nil => simp [sextetsOfBytes]
  | cons a r =>
      cases r with
      | nil => simp [sextetsOfBytes]
      | cons b r2 =>
          cases r2 with
          | nil => simp [sextetsOfBytes]
          | cons c r3 => simp [sextetsOfBytes]

theorem b64encode_eq_nil (l : Str) : b64encode l = [] ↔ l = [] := by
  unfold b64encode
  rw [List.map_eq_nil_iff, sextetsOfBytes_eq_nil]

theorem sextetsOfBytes_length (l : Str) :
    (sextetsOfBytes l).length =
      4 * (l.length / 3) +
        (if l.length % 3 = 0 then 0 else if l.length % 3 = 1 then 2 else 3) := by
  induction l using chunk3Ind with
  | h0 => simp [sextetsOfBytes]
  | h1 a => simp [sextetsOfBytes]
  | h2 a b => simp [sextetsOfBytes]
  | h3 a b c r ih =>
      simp only [sextetsOfBytes, List.length_cons, ih]
      have h1 : (r.length + 3) / 3 = r.length / 3 + 1 := by omega
      have h2 : (r.length + 3) % 3 = r.length % 3 := by omega
      simp only [List.length_cons, h1, h2]
      omega

theorem replaceAll_eq_map (s : Str) :
    replaceAllByte (replaceAllByte s 45 43) 95 47 = s.map urlToStdChar := by
  simp only [replaceAllByte, List.map_map]
  rfl

theorem sextetOf_urlToStd : ∀ s, s < 64 →
    sextetOf (urlToStdChar (urlCharOf s)) = s := by decide

theorem bytesOfSextets_take (l : Str) (h : ∀ b ∈ l, b < 256) :
    (bytesOfSextets (sextetsOfBytes l ++ padFor l)).take l.length = l := by
  induction l using chunk3Ind with
  | h0 => simp [sextetsOfBytes, padFor, bytesOfSextets]
  | h1 a =>
      have ha := h a (by simp)
      simp [sextetsOfBytes, padFor, bytesOfSextets]
      omega
  | h2 a b =>
      have ha := h a (by simp)
      have hb := h b (by simp)
      simp [sextetsOfBytes, padFor, bytesOfSextets]
      constructor <;> omega
  | h3 a b c r ih =>
      have ha := h a (by simp)
      have hb := h b (by simp)
      have hc := h c (by simp)
      have hpad : padFor (a :: b :: c :: r) = padFor r := by
        have h33 : (r.length + 1 + 1 + 1) % 3 = r.length % 3 := by omega
        simp only [padFor, List.length_cons, h33]
      have e0 : a / 4 * 4 + (a % 4 * 16 + b / 16) / 16 = a := by omega
      have e1 : (a % 4 * 16 + b / 16) % 16 * 16 + (b % 16 * 4 + c / 64) / 4 = b := by
        omega
      have e2 : (b % 16 * 4 + c / 64) % 4 * 64 + c % 64 = c := by omega
      have ihr := ih (fun x hx => h x (by simp [hx]))
      simp only [sextetsOfBytes, hpad, List.cons_append, bytesOfSextets,
        List.length_cons, List.take_succ_cons, e0, e1, e2, List.cons.injEq]
      simp [ihr]

theorem b64decode_b64encode (l : Str) (h : ∀ b ∈ l, b < 256) :
    b64decode (b64encode l) = l := by
  have hlt : ∀ s ∈ sextetsOfBytes l, s < 64 := sextetsOfBytes_lt l h
  have ht : replaceAllByte (replaceAllByte (b64encode l) 45 43) 95 47
      = (sextetsOfBytes l).map (fun s => urlToStdChar (urlCharOf s)) := by
    rw [replaceAll_eq_map]
    simp only [b64encode, List.map_map]
    rfl
  have hback : ((sextetsOfBytes l).map (fun s => urlToStdChar (urlCharOf s))).map
      sextetOf = sextetsOfBytes l := by
    rw [List.map_map]
    conv_rhs => rw [← List.map_id (sextetsOfBytes l)]
    apply List.map_congr_left
    intro s hs
    exact sextetOf_urlToStd s (hlt s hs)
  have hlen : ((sextetsOfBytes l).map
      (fun s => urlToStdChar (urlCharOf s))).length = (sextetsOfBytes l).length :=
    List.length_map _ _
  have hSlen := sextetsOfBytes_length l
  have hpad61 : [61, 61].map sextetOf = [0, 0] := by decide
  have hpad61a : [61].map sextetOf = [0] := by decide
  simp only [b64decode, ht, hlen]
  rcases (show l.length % 3 = 0 ∨ l.length % 3 = 1 ∨ l.length % 3 = 2 from by
    omega) with h3 | h3 | h3
  · have hk : (sextetsOfBytes l).length = 4 * (l.length / 3) := by
      rw [hSlen, h3]; simp
    rw [if_pos (by omega)]
    have hcount : (sextetsOfBytes l).length * 3 / 4 - 0 = l.length := by omega
    have hpadnil : padFor l = [] := by simp [padFor, h3]
    simp only [b64decodeCore, hback, hlen, hcount]
    have := bytesOfSextets_take l h
    rwa [hpadnil, List.append_nil] at this
  · have hk : (sextetsOfBytes l).length = 4 * (l.length / 3) + 2 := by
      rw [hSlen, h3]; simp
    rw [if_neg (by omega), if_pos (by omega)]
    have hpadeq : padFor l = [0, 0] := by simp [padFor, h3]
    simp only [b64decodeCore, List.map_append, hback, hpad61, List.length_append,
      hlen]
    have hcount : ((sextetsOfBytes l).length + [61, 61].length) * 3 / 4 - 2
        = l.length := by simp only [List.length_cons, List.length_nil]; omega
    rw [hcount, ← hpadeq]
    exact bytesOfSextets_take l h
  · have hk : (sextetsOfBytes l).length = 4 * (l.length / 3) + 3 := by
      rw [hSlen, h3]; simp
    rw [if_neg (by omega), if_neg (by omega), if_pos (by omega)]
    have hpadeq : padFor l = [0] := by simp [padFor, h3]
    simp only [b64decodeCore, List.map_append, hback, hpad61a, List.length_append,
      hlen]
    have hcount : ((sextetsOfBytes l).length + [61].length) * 3 / 4 - 1
        = l.length := by simp only [List.length_cons, List.length_nil]; omega
    rw [hcount, ← hpadeq]
    exact bytesOfSextets_take l h

/-! ### Structural lemmas about token parsing -/

theorem getStr_mkHeader (a : Str) : getStr (mkHeader a) (s2b "alg") = some a := rfl

theorem findIdxFrom_append_cons (h : Str) (c : Nat) (hn : c ∉ h) (r : Str) :
    findIdxFrom (h ++ c :: r) c = some h.length := by
  induction h with
  | nil => simp [findIdxFrom]
  | cons a t ih =>
      have hac : a ≠ c := by
        intro e
        exact hn (by simp [e])
      have ht : c ∉ t := fun hm => hn (by simp [hm])
      simp [findIdxFrom, hac, ih ht]

theorem findFrom_first (eh : Str) (hn : 46 ∉ eh) (r : Str) :
    findFrom (eh ++ 46 :: r) 46 0 = some eh.length := by
  simp [findFrom, findIdxFrom_append_cons eh 46 hn r]

theorem drop_after (eh : Str) (r : Str) :
    (eh ++ 46 :: r).drop (eh.length + 1) = r := by
  rw [show eh ++ 46 :: r = (eh ++ [46]) ++ r from by simp,
    show eh.length + 1 = (eh ++ [46]).length from by simp, List.drop_left]

theorem findFrom_second (eh ep sig : Str) (hn : 46 ∉ ep) :
    findFrom (eh ++ 46 :: (ep ++ 46 :: sig)) 46 (eh.length + 1)
      = some (ep.length + (eh.length + 1)) := by
  rw [findFrom, drop_after, findIdxFrom_append_cons ep 46 hn sig]
  rfl

theorem take_header (eh : Str) (r : Str) :
    (eh ++ 46 :: r).take eh.length = eh := List.take_left eh (46 :: r)

theorem take_token (eh ep sig : Str) :
    (eh ++ 46 :: (ep ++ 46 :: sig)).take (ep.length + (eh.length + 1))
      = eh ++ 46 :: ep := by
  rw [show eh ++ 46 :: (ep ++ 46 :: sig) = (eh ++ 46 :: ep) ++ 46 :: sig from by
    simp]
  rw [show ep.length + (eh.length + 1) = (eh ++ 46 :: ep).length from by
    simp; omega]
  exact List.take_left _ _

theorem drop_sig (eh ep sig : Str) :
    (eh ++ 46 :: (ep ++ 46 :: sig)).drop (ep.length + (eh.length + 1) + 1)
      = sig := by
  rw [show eh ++ 46 :: (ep ++ 46 :: sig) = ((eh ++ 46 :: ep) ++ [46]) ++ sig from
    by simp]
  rw [show ep.length + (eh.length + 1) + 1 = ((eh ++ 46 :: ep) ++ [46]).length from
    by simp; omega]
  exact List.drop_left _ _

theorem take_payload (eh ep sig : Str) :
    ((eh ++ 46 :: (ep ++ 46 :: sig)).drop (eh.length + 1)).take
      (ep.length + (eh.length + 1) - eh.length - 1) = ep := by
  rw [drop_after]
  rw [show ep.length + (eh.length + 1) - eh.length - 1 = ep.length from by omega]
  exact List.take_left ep (46 :: sig)

theorem decode_eq_checked (L : JsonLib) (C : Crypto) (eh ep sig key : Str)
    (alg : List Str) (h1 : 46 ∉ eh) (h2 : 46 ∉ ep) :
    decode L C (eh ++ 46 :: (ep ++ 46 :: sig)) key alg
      = decodeChecked L C eh ep sig key alg := by
  have hne : eh ++ 46 :: (ep ++ 46 :: sig) ≠ [] := by simp
  simp only [decode, if_neg hne, findFrom_first eh h1 (ep ++ 46 :: sig),
    findFrom_second eh ep sig h2, take_header, take_token, drop_sig,
    take_payload, decodeChecked]

/-! ### Round-trip lemmas, one per algorithm family -/

theorem roundtrip_none (L : JsonLib) (C : Crypto) (p : Json) (key : Str)
    (hhp : L.parse (L.dump (mkHeader (s2b "none"))) = some (mkHeader (s2b "none")))
    (hhb : ∀ b ∈ L.dump (mkHeader (s2b "none")), b < 256)
    (hpp : L.parse (L.dump p) = some p)
    (hpb : ∀ b ∈ L.dump p, b < 256) :
    decode L C (encode L C p key (s2b "none")) [] [s2b "none"] = .returned p := by
  have hne : s2b "none" ≠ [] := by decide
  have henc : encode L C p key (s2b "none")
      = b64encode (L.dump (mkHeader (s2b "none"))) ++ 46 ::
          (b64encode (L.dump p) ++ 46 :: []) := by
    simp [encode, getStr_mkHeader, hne]
  rw [henc, decode_eq_checked L C _ _ _ [] [s2b "none"]
    (dot_not_mem_b64encode _) (dot_not_mem_b64encode _)]
  have hdh := b64decode_b64encode _ hhb
  have hdp := b64decode_b64encode _ hpb
  simp [decodeChecked, hdh, hdp, hhp, hpp, getStr_mkHeader]

theorem roundtrip_hs (L : JsonLib) (C : Crypto) (p : Json) (key a : Str)
    (d : Digest)
    (hane : a ≠ [])
    (hnone : a ≠ s2b "none")
    (hhs : hasSubstr a (s2b "HS") = true)
    (hsgn : ∀ m, signHMAC C m key a = b64encode (C.hmac d key m))
    (hmne : ∀ m, C.hmac d key m ≠ [])
    (hhp : L.parse (L.dump (mkHeader a)) = some (mkHeader a))
    (hhb : ∀ b ∈ L.dump (mkHeader a), b < 256)
    (hpp : L.parse (L.dump p) = some p)
    (hpb : ∀ b ∈ L.dump p, b < 256) :
    decode L C (encode L C p key a) key [a] = .returned p := by
  have hsne : ∀ m, signHMAC C m key a ≠ [] := by
    intro m hnil
    rw [hsgn m] at hnil
    exact hmne m ((b64encode_eq_nil _).mp hnil)
  have henc : encode L C p key a
      = b64encode (L.dump (mkHeader a)) ++ 46 ::
          (b64encode (L.dump p) ++ 46 ::
            signHMAC C (b64encode (L.dump (mkHeader a)) ++ 46 ::
              b64encode (L.dump p)) key a) := by
    simp [encode, getStr_mkHeader, hane, hnone, hhs, hsne]
  rw [henc, decode_eq_checked L C _ _ _ key [a]
    (dot_not_mem_b64encode _) (dot_not_mem_b64encode _)]
  have hdh := b64decode_b64encode _ hhb
  have hdp := b64decode_b64encode _ hpb
  simp [decodeChecked, hdh, hdp, hhp, hpp, getStr_mkHeader, hnone, hhs, hsne]

theorem roundtrip_pem (L : JsonLib) (C : Crypto) (p : Json)
    (encKey decKey a : Str) (d : Digest)
    (hane : a ≠ [])
    (hnone : a ≠ s2b "none")
    (hhs : hasSubstr a (s2b "HS") = false)
    (hdg : pemDigest a = some d)
    (hsig : ∀ m, ∃ sig, C.pemSign d encKey m = some sig ∧ sig ≠ [] ∧
      (∀ b ∈ sig, b < 256) ∧ C.pemVerify d decKey m sig = true)
    (hhp : L.parse (L.dump (mkHeader a)) = some (mkHeader a))
    (hhb : ∀ b ∈ L.dump (mkHeader a), b < 256)
    (hpp : L.parse (L.dump p) = some p)
    (hpb : ∀ b ∈ L.dump p, b < 256) :
    decode L C (encode L C p encKey a) decKey [a] = .returned p := by
  obtain ⟨sig, hs1, hs2, hs3, hs4⟩ :=
    hsig (b64encode (L.dump (mkHeader a)) ++ 46 :: b64encode (L.dump p))
  have hspem : signPEM C (b64encode (L.dump (mkHeader a)) ++ 46 ::
      b64encode (L.dump p)) encKey a = b64encode sig := by
    simp [signPEM, hdg, hs1]
  have hbne : b64encode sig ≠ [] := fun hnil => hs2 ((b64encode_eq_nil _).mp hnil)
  have henc : encode L C p encKey a
      = b64encode (L.dump (mkHeader a)) ++ 46 ::
          (b64encode (L.dump p) ++ 46 :: b64encode sig) := by
    simp [encode, getStr_mkHeader, hane, hnone, hhs, hspem, hbne]
  rw [henc, decode_eq_checked L C _ _ _ decKey [a]
    (dot_not_mem_b64encode _) (dot_not_mem_b64encode _)]
  have hdh := b64decode_b64encode _ hhb
  have hdp := b64decode_b64encode _ hpb
  have hver : verifyPEM C (b64encode (L.dump (mkHeader a)) ++ 46 ::
      b64encode (L.dump p)) (b64encode sig) decKey a = true := by
    simp [verifyPEM, hdg, b64decode_b64encode sig hs3, hs2, hs4]
  simp [decodeChecked, hdh, hdp, hhp, hpp, getStr_mkHeader, hnone, hhs, hver]

/-! ## Claims -/

/-- C1: for every JSON payload `p`, every supported algorithm `a` (HS256,
HS384, HS512, RS256, RS384, RS512, ES256, ES384, ES512, none), and every key
valid for `a`, decoding the token produced by `encode p key a` with the same
key (the matching public key for RS*/ES*, the empty key for none) and
accepted set `{a}` returns exactly `p`.  The JSON library is assumed to
re-parse its own dumps of the two values involved (header object and
payload) and to emit byte values. -/
theorem decode_encode_roundtrip (L : JsonLib) (C : Crypto) (p : Json)
    (a encKey decKey : Str)
    (ha : a ∈ supportedAlgs)
    (hk : KeyValidFor C a encKey decKey)
    (hhp : L.parse (L.dump (mkHeader a)) = some (mkHeader a))
    (hhb : ∀ b ∈ L.dump (mkHeader a), b < 256)
    (hpp : L.parse (L.dump p) = some p)
    (hpb : ∀ b ∈ L.dump p, b < 256) :
    decode L C (encode L C p encKey a) decKey [a] = .returned p := by
  simp only [supportedAlgs, List.mem_cons, List.not_mem_nil, or_false] at ha
  rcases ha with rfl | rfl | rfl | rfl | rfl | rfl | rfl | rfl | rfl | rfl
  · unfold KeyValidFor at hk
    rw [if_neg (by decide), if_pos rfl] at hk
    obtain ⟨rfl, hm⟩ := hk
    exact roundtrip_hs L C p decKey _ .sha256 (by decide) (by decide) (by decide)
      (fun m => rfl) hm hhp hhb hpp hpb
  · unfold KeyValidFor at hk
    rw [if_neg (by decide), if_neg (by decide), if_pos rfl] at hk
    obtain ⟨rfl, hm⟩ := hk
    exact roundtrip_hs L C p decKey _ .sha384 (by decide) (by decide) (by decide)
      (fun m => rfl) hm hhp hhb hpp hpb
  · unfold KeyValidFor at hk
    rw [if_neg (by decide), if_neg (by decide), if_neg (by decide),
      if_pos rfl] at hk
    obtain ⟨rfl, hm⟩ := hk
    exact roundtrip_hs L C p decKey _ .sha512 (by decide) (by decide) (by decide)
      (fun m => rfl) hm hhp hhb hpp hpb
  · unfold KeyValidFor at hk
    rw [if_neg (by decide), if_neg (by decide), if_neg (by decide),
      if_neg (by decide)] at hk
    simp only [show pemDigest (s2b "RS256") = some Digest.sha256 from by decide]
      at hk
    exact roundtrip_pem L C p encKey decKey _ .sha256 (by decide) (by decide)
      (by decide) (by decide) hk hhp hhb hpp hpb
  · unfold KeyValidFor at hk
    rw [if_neg (by decide), if_neg (by decide), if_neg (by decide),
      if_neg (by decide)] at hk
    simp only [show pemDigest (s2b "RS384") = some Digest.sha384 from by decide]
      at hk
    exact roundtrip_pem L C p encKey decKey _ .sha384 (by decide) (by decide)
      (by decide) (by decide) hk hhp hhb hpp hpb
  · unfold KeyValidFor at hk
    rw [if_neg (by decide), if_neg (by decide), if_neg (by decide),
      if_neg (by decide)] at hk
    simp only [show pemDigest (s2b "RS512") = some Digest.sha512 from by decide]
      at hk
    exact roundtrip_pem L C p encKey decKey _ .sha512 (by decide) (by decide)
      (by decide) (by decide) hk hhp hhb hpp hpb
  · unfold KeyValidFor at hk
    rw [if_neg (by decide), if_neg (by decide), if_neg (by decide),
      if_neg (by decide)] at hk
    simp only [show pemDigest (s2b "ES256") = some Digest.sha256 from by decide]
      at hk
    exact roundtrip_pem L C p encKey decKey _ .sha256 (by decide) (by decide)
      (by decide) (by decide) hk hhp hhb hpp hpb
  · unfold KeyValidFor at hk
    rw [if_neg (by decide), if_neg (by decide), if_neg (by decide),
      if_neg (by decide)] at hk
    simp only [show pemDigest (s2b "ES384") = some Digest.sha384 from by decide]
      at hk
    exact roundtrip_pem L C p encKey decKey _ .sha384 (by decide) (by decide)
      (by decide) (by decide) hk hhp hhb hpp hpb
  · unfold KeyValidFor at hk
    rw [if_neg (by decide), if_neg (by decide), if_neg (by decide),
      if_neg (by decide)] at hk
    simp only [show pemDigest (s2b "ES512") = some Digest.sha512 from by decide]
      at hk
    exact roundtrip_pem L C p encKey decKey _ .sha512 (by decide) (by decide)
      (by decide) (by decide) hk hhp hhb hpp hpb
  · unfold KeyValidFor at hk
    rw [if_pos rfl] at hk
    subst hk
    exact roundtrip_none L C p encKey hhp hhb hpp hpb

/-- Witness for C1: a concrete round trip with algorithm `"none"`, the empty
key, and a JSON library that re-parses its own dump of the header object. -/
theorem decode_encode_roundtrip_witness :
    decode constJsonLib trivialCrypto
        (encode constJsonLib trivialCrypto (mkHeader (s2b "none")) []
          (s2b "none")) [] [s2b "none"]
      = .returned (mkHeader (s2b "none")) :=
  decode_encode_roundtrip constJsonLib trivialCrypto (mkHeader (s2b "none"))
    (s2b "none") [] [] (by decide) (by unfold KeyValidFor; simp) rfl (by decide)
    rfl (by decide)

/-- C2: for every token whose decoded header declares `alg == "none"` and
every non-empty key, `decode` returns null (`json{}`), whatever the accepted
set — including sets containing `"none"` (jwt.cpp:326-329). -/
theorem decode_none_with_key_fails (L : JsonLib) (C : Crypto)
    (jwt key : Str) (alg : List Str) (fp sp : Nat) (header : Json)
    (hne : jwt ≠ [])
    (h1 : findFrom jwt 46 0 = some fp)
    (h2 : findFrom jwt 46 (fp + 1) = some sp)
    (hh : L.parse (b64decode (jwt.take fp)) = some header)
    (halg : getStr header (s2b "alg") = some (s2b "none"))
    (hkey : key ≠ []) :
    decode L C jwt key alg = .returned .null := by
  simp only [decode, if_neg hne, h1, h2, hh, halg]
  simp [hkey]

/-- Witness for C2: an `alg="none"` token, a non-empty key, and an accepted
set that does contain `"none"`. -/
theorem decode_none_with_key_fails_witness :
    decode constJsonLib trivialCrypto (s2b "QQ.QQ.") (s2b "k") [s2b "none"]
      = .returned .null :=
  decode_none_with_key_fails constJsonLib trivialCrypto (s2b "QQ.QQ.")
    (s2b "k") [s2b "none"] 2 5 (mkHeader (s2b "none")) (by decide) (by decide)
    (by decide) rfl rfl (by decide)

/-- C3: with a non-empty accepted set that does not contain the token's
declared `alg`, `decode` returns null (jwt.cpp:330-333); with the empty
accepted set the policy gate is a no-op: `decode` behaves exactly as if the
declared algorithm itself had been accepted. -/
theorem decode_accepted_set_policy (L : JsonLib) (C : Crypto)
    (jwt key : Str) (alg : List Str) (fp sp : Nat) (header : Json)
    (theAlg : Str)
    (hne : jwt ≠ [])
    (h1 : findFrom jwt 46 0 = some fp)
    (h2 : findFrom jwt 46 (fp + 1) = some sp)
    (hh : L.parse (b64decode (jwt.take fp)) = some header)
    (halg : getStr header (s2b "alg") = some theAlg) :
    (alg ≠ [] → alg.contains theAlg = false →
      decode L C jwt key alg = .returned .null)
    ∧ decode L C jwt key [] = decode L C jwt key [theAlg] := by
  constructor
  · intro hanil hcon
    simp only [decode, if_neg hne, h1, h2, hh, halg]
    by_cases hg : theAlg = s2b "none" ∧ key ≠ []
    · rw [if_pos hg]
    · rw [if_neg hg, if_pos ⟨hcon, hanil⟩]
  · simp only [decode, if_neg hne, h1, h2, hh, halg]
    by_cases hg : theAlg = s2b "none" ∧ key ≠ []
    · rw [if_pos hg, if_pos hg]
    · rw [if_neg hg, if_neg hg,
        if_neg (show ¬(([] : List Str).contains theAlg = false ∧
          ([] : List Str) ≠ []) from by simp),
        if_neg (show ¬([theAlg].contains theAlg = false ∧ [theAlg] ≠ []) from
          by simp)]

/-- Witness for C3: an `alg="none"` token refused under `accepted={HS256}`. -/
theorem decode_accepted_set_policy_witness :
    decode constJsonLib trivialCrypto (s2b "QQ.QQ.") [] [s2b "HS256"]
      = .returned .null :=
  (decode_accepted_set_policy constJsonLib trivialCrypto (s2b "QQ.QQ.") []
    [s2b "HS256"] 2 5 (mkHeader (s2b "none")) (s2b "none") (by decide)
    (by decide) (by decide) rfl rfl).1 (by decide) (by decide)

/-- C4: in the HMAC branch of `decode` (jwt.cpp:342-348), the token is
rejected whenever the presented signature segment differs from the recomputed
one, or the recomputed one is empty — in particular two empty signatures
compare "equal" yet still fail, because the emptiness disjunct fires. -/
theorem decode_hmac_mismatch_fails (L : JsonLib) (C : Crypto)
    (jwt key : Str) (alg : List Str) (fp sp : Nat) (header : Json)
    (theAlg : Str)
    (hne : jwt ≠ [])
    (h1 : findFrom jwt 46 0 = some fp)
    (h2 : findFrom jwt 46 (fp + 1) = some sp)
    (hh : L.parse (b64decode (jwt.take fp)) = some header)
    (halg : getStr header (s2b "alg") = some theAlg)
    (hhs : hasSubstr theAlg (s2b "HS") = true)
    (hnone : theAlg ≠ s2b "none")
    (hbad : jwt.drop (sp + 1) ≠ signHMAC C (jwt.take sp) key theAlg
      ∨ signHMAC C (jwt.take sp) key theAlg = []) :
    decode L C jwt key alg = .returned .null := by
  simp only [decode, if_neg hne, h1, h2, hh, halg]
  by_cases hg1 : theAlg = s2b "none" ∧ key ≠ []
  · rw [if_pos hg1]
  · rw [if_neg hg1]
    by_cases hg2 : alg.contains theAlg = false ∧ alg ≠ []
    · rw [if_pos hg2]
    · rw [if_neg hg2, if_neg hnone, if_pos hhs, if_pos hbad]

/-- Witness for C4, exercising the both-empty case: the token carries an
empty signature segment and the HMAC backend yields no bytes, so presented
and recomputed signatures are both empty — and decoding still fails. -/
theorem decode_hmac_mismatch_fails_witness :
    decode hs256JsonLib emptyCrypto (s2b "Qg.Qg.") [] [] = .returned .null :=
  decode_hmac_mismatch_fails hs256JsonLib emptyCrypto (s2b "Qg.Qg.") [] [] 2 5
    (mkHeader (s2b "HS256")) (s2b "HS256") (by decide) (by decide) (by decide)
    rfl rfl (by decide) (by decide) (Or.inr rfl)

/-- C5 (failing-input evaluation): the token `"ew.ew."` passes the shape
check, its header segment `"ew"` base64url-decodes to the single byte `0x7b`
(`"{"`), which is not valid JSON — and `decode` propagates the JSON parser's
exception (jwt.cpp:323 calls the throwing `json::parse`) instead of reaching
either terminal outcome, contradicting the claim that malformed JSON yields
null. -/
theorem decode_throws_on_bad_header_json (L : JsonLib) (C : Crypto)
    (key : Str) (alg : List Str) (hp : L.parse [123] = none) :
    decode L C (s2b "ew.ew.") key alg = .thrown := by
  have hne : s2b "ew.ew." ≠ [] := by decide
  have h1 : findFrom (s2b "ew.ew.") 46 0 = some 2 := by decide
  have h2 : findFrom (s2b "ew.ew.") 46 (2 + 1) = some 5 := by decide
  have h3 : b64decode ((s2b "ew.ew.").take 2) = [123] := by decide
  simp only [decode, if_neg hne, h1, h2, h3, hp]

/-- Witness for C5's failing input, with a parser that rejects `"{"`. -/
theorem decode_throws_on_bad_header_json_witness :
    decode noneJsonLib trivialCrypto (s2b "ew.ew.") [] [] = .thrown :=
  decode_throws_on_bad_header_json noneJsonLib trivialCrypto [] [] rfl

/-- C6: `encode` fails (returns the empty string, jwt.cpp:300-302) whenever
the algorithm is not `"none"` and is unrecognized, or whenever the resolved
signing step produces no signature (any backend failure); and `encode` with
`"none"` never fails. -/
theorem encode_failure_semantics (L : JsonLib) (C : Crypto) :
    (∀ (p : Json) (key a : Str), a ≠ [] → a ≠ s2b "none" →
      a ∉ supportedAlgs → encode L C p key a = [])
    ∧ (∀ (p : Json) (key a : Str), a ≠ [] → a ≠ s2b "none" →
        (if hasSubstr a (s2b "HS") = true then
          signHMAC C (b64encode (L.dump (mkHeader a)) ++ 46 ::
            b64encode (L.dump p)) key a
         else signPEM C (b64encode (L.dump (mkHeader a)) ++ 46 ::
            b64encode (L.dump p)) key a) = [] →
        encode L C p key a = [])
    ∧ (∀ (p : Json) (key : Str), encode L C p key (s2b "none") ≠ []) := by
  refine ⟨?_, ?_, ?_⟩
  · intro p key a h1 h2 h3
    simp only [supportedAlgs, List.mem_cons, List.not_mem_nil, or_false,
      not_or] at h3
    obtain ⟨n1, n2, n3, n4, n5, n6, n7, n8, n9, -⟩ := h3
    have hhm : ∀ m, signHMAC C m key a = [] := by
      intro m
      simp [signHMAC, n1, n2, n3]
    have hpm : ∀ m, signPEM C m key a = [] := by
      intro m
      simp [signPEM, pemDigest, n4, n5, n6, n7, n8, n9]
    simp [encode, getStr_mkHeader, h1, h2, hhm, hpm]
  · intro p key a h1 h2 hsig
    simp [encode, getStr_mkHeader, h1, h2, hsig]
  · intro p key
    simp [encode, getStr_mkHeader, (by decide : s2b "none" ≠ [])]

/-- Witness for C6: the spec's own scenario `encode(payload, key, "HK256")`
fails, a backend signing failure fails, and an `alg="none"` encode does not. -/
theorem encode_failure_semantics_witness :
    encode constJsonLib trivialCrypto Json.null (s2b "secret") (s2b "HK256") = []
    ∧ encode constJsonLib emptyCrypto Json.null (s2b "secret") (s2b "HS256") = []
    ∧ encode constJsonLib trivialCrypto Json.null (s2b "secret") (s2b "none")
        ≠ [] :=
  ⟨(encode_failure_semantics constJsonLib trivialCrypto).1 Json.null
      (s2b "secret") (s2b "HK256") (by decide) (by decide) (by decide),
   (encode_failure_semantics constJsonLib emptyCrypto).2.1 Json.null
      (s2b "secret") (s2b "HS256") (by decide) (by decide) rfl,
   (encode_failure_semantics constJsonLib trivialCrypto).2.2 Json.null
      (s2b "secret")⟩

/-- C7: for every byte sequence, base64url-decoding the base64url encoding
gives back the bytes, and the encoded text never contains `'='` (61),
`'+'` (43) or `'/'` (47). -/
theorem b64_roundtrip_and_alphabet (l : Str) (h : ∀ b ∈ l, b < 256) :
    b64decode (b64encode l) = l ∧ 61 ∉ b64encode l ∧ 43 ∉ b64encode l ∧
      47 ∉ b64encode l :=
  ⟨b64decode_b64encode l h,
   not_mem_b64encode_of_ne 61 (fun s => (urlCharOf_ne s).2.1) l,
   not_mem_b64encode_of_ne 43 (fun s => (urlCharOf_ne s).2.2.1) l,
   not_mem_b64encode_of_ne 47 (fun s => (urlCharOf_ne s).2.2.2) l⟩

/-- Witness for C7 on a concrete byte sequence covering a 0 byte, a 255 byte
and a non-multiple-of-three length. -/
theorem b64_roundtrip_and_alphabet_witness :
    b64decode (b64encode [0, 255, 10, 61]) = [0, 255, 10, 61]
    ∧ 61 ∉ b64encode [0, 255, 10, 61] ∧ 43 ∉ b64encode [0, 255, 10, 61]
    ∧ 47 ∉ b64encode [0, 255, 10, 61] :=
  b64_roundtrip_and_alphabet [0, 255, 10, 61] (by decide)

/-- C8: `b64decode` re-inserts padding from the input length mod 4 — 0
appends nothing, 2 appends `"=="`, 3 appends `"="` — and every input whose
length is 1 mod 4 fails to the empty byte sequence (jwt.cpp:70-86). -/
theorem b64decode_padding_reinsertion (l : Str) :
    (l.length % 4 = 1 → b64decode l = [])
    ∧ (l.length % 4 = 0 → b64decode l
        = b64decodeCore (replaceAllByte (replaceAllByte l 45 43) 95 47) 0)
    ∧ (l.length % 4 = 2 → b64decode l
        = b64decodeCore
            (replaceAllByte (replaceAllByte l 45 43) 95 47 ++ [61, 61]) 2)
    ∧ (l.length % 4 = 3 → b64decode l
        = b64decodeCore
            (replaceAllByte (replaceAllByte l 45 43) 95 47 ++ [61]) 1) := by
  have hlen : (replaceAllByte (replaceAllByte l 45 43) 95 47).length
      = l.length := by simp [replaceAllByte]
  refine ⟨fun h => ?_, fun h => ?_, fun h => ?_, fun h => ?_⟩ <;>
    simp [b64decode, hlen, h]

/-- Witness for C8: all four length classes at concrete inputs. -/
theorem b64decode_padding_reinsertion_witness :
    b64decode (s2b "AAAAA") = []
    ∧ b64decode (s2b "TWFu")
        = b64decodeCore (replaceAllByte (replaceAllByte (s2b "TWFu") 45 43)
            95 47) 0
    ∧ b64decode (s2b "ew")
        = b64decodeCore (replaceAllByte (replaceAllByte (s2b "ew") 45 43)
            95 47 ++ [61, 61]) 2
    ∧ b64decode (s2b "TWE")
        = b64decodeCore (replaceAllByte (replaceAllByte (s2b "TWE") 45 43)
            95 47 ++ [61]) 1 :=
  ⟨(b64decode_padding_reinsertion (s2b "AAAAA")).1 (by decide),
   (b64decode_padding_reinsertion (s2b "TWFu")).2.1 (by decide),
   (b64decode_padding_reinsertion (s2b "ew")).2.2.1 (by decide),
   (b64decode_padding_reinsertion (s2b "TWE")).2.2.2 (by decide)⟩

/-- C9: `encode` with algorithm `"none"` never reads the key — any two keys
produce the same token, which is a function of the payload alone and ends in
a trailing `'.'` with an empty signature segment (jwt.cpp:290-292,304). -/
theorem encode_none_key_oblivious (L : JsonLib) (C : Crypto) (p : Json)
    (k1 k2 : Str) :
    encode L C p k1 (s2b "none") = encode L C p k2 (s2b "none")
    ∧ encode L C p k1 (s2b "none")
      = b64encode (L.dump (mkHeader (s2b "none"))) ++ 46 ::
          (b64encode (L.dump p) ++ [46]) := by
  have hform : ∀ k, encode L C p k (s2b "none")
      = b64encode (L.dump (mkHeader (s2b "none"))) ++ 46 ::
          (b64encode (L.dump p) ++ [46]) := by
    intro k
    simp [encode, getStr_mkHeader, (by decide : s2b "none" ≠ [])]
  exact ⟨(hform k1).trans (hform k2).symm, hform k1⟩

/-- C10: `signHMAC` returns the empty string unless the algorithm name is
exactly `"HS256"`, `"HS384"` or `"HS512"` (jwt.cpp:109-120) — names merely
containing `"HS"` do not sign. -/
theorem signHMAC_rejects_unknown_names (C : Crypto) (str key a : Str)
    (h1 : a ≠ s2b "HS256") (h2 : a ≠ s2b "HS384") (h3 : a ≠ s2b "HS512") :
    signHMAC C str key a = [] := by
  simp [signHMAC, h1, h2, h3]

/-- Witness for C10: a name containing `"HS"` as a substring still yields the
empty signature, even with a backend that would produce MAC bytes. -/
theorem signHMAC_rejects_unknown_names_witness :
    signHMAC trivialCrypto (s2b "m") (s2b "k") (s2b "XHS256") = [] :=
  signHMAC_rejects_unknown_names trivialCrypto (s2b "m") (s2b "k")
    (s2b "XHS256") (by decide) (by decide) (by decide)

end JWT
